import Mathlib

/-!
Verification of the network-enrichment subsystem of the phishing-URL feature
extractor (`scripts/extract_network_whois_features.py`).

Embedding conventions:
* Python `float` values arising in this subsystem are either the sentinel
  `-1.0` or `float(n)` of a whole number of days, so they are embedded as
  `Int` with sentinel `-1`.
* Timestamps (`datetime` values in UTC) are embedded as `Int` seconds;
  Python's `timedelta.days` is floored division by 86400 (`Int.fdiv`).
* External effects (the WHOIS HTTP endpoint, the TLS handshake, the clock,
  `strptime`) are oracles passed in explicitly; the on-disk cache file and the
  in-memory cache dict are explicit state threaded through `domain_age_days`.
* Python exceptions are `Except String`; a `try`/`except` block is a `match`
  on the `Except` value of the embedded `try` body.
-/

deriving instance DecidableEq for Except

namespace PhishFeat

/-! ## A slice of CPython `urllib.parse`

`get_domain` delegates to `urlparse(url).hostname`.  The definitions below
embed the code path of CPython's `urlsplit` and the `hostname` property that
this call exercises (`urllib/parse.py`): control-character stripping, scheme
splitting, netloc extraction with the "Invalid IPv6 URL" `ValueError`, then
`_hostinfo` / `hostname` (userinfo removal, bracket handling, `%`-zone-aware
lowercasing).  Python's `str.lower` is embedded via `Char.toLower`, which
agrees with it on ASCII (all inputs considered here are ASCII).
`_check_bracketed_host` (Python >= 3.11, raises on bracketed hosts that are
not IPv6/IPvFuture literals) is not modelled; no input used below would
trigger it. -/

/-- Python `s.partition(sep)` for a one-character separator, on char lists:
returns (part before the first `sep`, whether `sep` occurs, part after). -/
def partChar : List Char → Char → List Char × Bool × List Char
  | [], _ => ([], false, [])
  | c :: cs, d =>
    if c = d then ([], true, cs)
    else
      let r := partChar cs d
      (c :: r.1, r.2.1, r.2.2)

/-- The third component of Python `s.rpartition(sep)`: everything after the
last occurrence of `sep`, or all of `s` when `sep` does not occur. -/
def rpartAfter (l : List Char) (d : Char) : List Char :=
  ((partChar l.reverse d).1).reverse

/-- Python `str.lower` restricted to ASCII (`Char.toLower`). -/
def lowerAscii (l : List Char) : List Char :=
  l.map Char.toLower

/-- The set `scheme_chars` of `urllib.parse`: ASCII letters, digits, `+`, `-`, `.`. -/
def isSchemeChar (c : Char) : Bool :=
  c.isAlpha || c.isDigit || c = '+' || c = '-' || c = '.'

/-- The `url.lstrip(_WHATWG_C0_CONTROL_OR_SPACE)` step of `urlsplit`:
drop leading C0 control characters and spaces (code points <= 0x20). -/
def lstripControl (l : List Char) : List Char :=
  l.dropWhile (fun c => c.val ≤ 0x20)

/-- The `_UNSAFE_URL_BYTES_TO_REMOVE` step of `urlsplit`: delete every
tab, carriage return and line feed. -/
def removeUnsafeBytes (l : List Char) : List Char :=
  l.filter (fun c => !(c = '\t' || c = '\r' || c = '\n'))

/-- The scheme-splitting step of `urlsplit`: when the text up to the first
`:` (at index > 0, first character an ASCII letter) consists of scheme
characters, drop `scheme:`; otherwise leave the url unchanged.  (The scheme
itself is irrelevant to `hostname`.) -/
def stripScheme (l : List Char) : List Char :=
  match l.findIdx? (· = ':') with
  | none => l
  | some i =>
    if 0 < i ∧ (l.take 1).all (fun c => c.isAlpha && c.val < 128)
        ∧ (l.take i).all isSchemeChar then
      l.drop (i + 1)
    else l

/-- The call `_splitnetloc(url, 2)`, first component: the netloc runs from index 2 to
the first `/`, `?` or `#`. -/
def splitNetloc2 (l : List Char) : List Char :=
  (l.drop 2).takeWhile (fun c => !(c = '/' || c = '?' || c = '#'))

/-- The netloc computed by `urlsplit`, or the `ValueError("Invalid IPv6 URL")`
it raises when the netloc has unbalanced square brackets.  A url whose
remainder (after control stripping and scheme removal) does not start with
`//` has an empty netloc. -/
def urlsplitNetloc (url : String) : Except String (List Char) :=
  let l := stripScheme (removeUnsafeBytes (lstripControl url.toList))
  match l with
  | '/' :: '/' :: _ =>
    let netloc := splitNetloc2 l
    if ('[' ∈ netloc ∧ ']' ∉ netloc) ∨ (']' ∈ netloc ∧ '[' ∉ netloc) then
      Except.error "Invalid IPv6 URL"
    else
      Except.ok netloc
  | _ => Except.ok []

/-- The host field of `_hostinfo`: strip userinfo (`rpartition('@')`), then
either the bracketed part (`partition('[')` / `partition(']')`) or the text
before the port separator (`partition(':')`). -/
def hostinfoHost (netloc : List Char) : List Char :=
  let hostinfo := rpartAfter netloc '@'
  let br := partChar hostinfo '['
  if br.2.1 then (partChar br.2.2 ']').1
  else (partChar hostinfo ':').1

/-- The `hostname` property: `None` for an empty host; otherwise the host is
lowercased up to the first `%` (an IPv6 zone id must not be lowercased) and
the `%` and zone are appended verbatim. -/
def pyHostname (netloc : List Char) : Option (List Char) :=
  let h := hostinfoHost netloc
  if h.isEmpty then none
  else
    let z := partChar h '%'
    some (lowerAscii z.1 ++ (if z.2.1 then '%' :: z.2.2 else []))

/-- Embeds `get_domain` (`extract_network_whois_features.py`, lines 50-55):
`return urlparse(url).hostname or ""`.  The `ValueError` that `urlparse` can
raise propagates (there is no handler in `get_domain`). -/
def get_domain (url : String) : Except String String :=
  match urlsplitNetloc url with
  | Except.error e => Except.error e
  | Except.ok netloc =>
    Except.ok (String.mk ((pyHostname netloc).getD []))

/-! ## WHOIS cache and `domain_age_days`

The module-level dict `whois_cache` is embedded as an association list with
Python-dict semantics: `dlookup` is `dict.__getitem__` / `in`, `dinsert` is
`dict.__setitem__` (overwrites any previous binding for the key).  The cache
file is a second mapping `disk`; `save_cache(CACHE_FILE, whois_cache)` makes
`disk` a copy of the in-memory mapping.  `netCalls` counts the HTTP GET
requests issued (`requests.get`, line 84). -/

/-- An in-memory or on-disk WHOIS cache mapping: domain to age-in-days. -/
abbrev Cache := List (String × Int)

/-- Python `domain in whois_cache` / `whois_cache[domain]`. -/
def dlookup : Cache → String → Option Int
  | [], _ => none
  | (k, v) :: m, d => if k = d then some v else dlookup m d

/-- Python `whois_cache[domain] = v`: bind `d` to `v`, dropping any previous
binding for `d` (dict keys are unique). -/
def dinsert (m : Cache) (d : String) (v : Int) : Cache :=
  (d, v) :: (List.filter (fun p => p.1 ≠ d) m)

/-- Number of bindings a mapping holds for key `d` (a dict always has 0
or 1; the invariant is stated through this count). -/
def countKey (m : Cache) (d : String) : Nat :=
  (List.filter (fun p => p.1 = d) m).length

/-- Outcome of `requests.get(...)` followed by `resp.json()` for one domain:
the request can raise, the body can fail to parse as JSON, or a JSON body is
obtained whose `WhoisRecord.createdDate` field is the given optional string. -/
inductive NetResult
  | httpError
  | jsonError
  | jsonOk (createdDate : Option String)

/-- External world of `domain_age_days`: the WHOIS endpoint, `strptime` with
format `"%Y-%m-%dT%H:%M:%SZ"` (`none` embeds the `ValueError` it raises on a
non-conforming string; `some t` the parsed UTC timestamp in seconds), and
`datetime.now(timezone.utc)` in seconds. -/
structure WhoisEnv where
  net : String → NetResult
  parseDate : String → Option Int
  now : Int

/-- Program state threaded through `domain_age_days`: in-memory cache dict,
cache-file contents, count of HTTP requests issued. -/
structure WhoisState where
  mem : Cache
  disk : Cache
  netCalls : Nat
  deriving DecidableEq

/-- Embeds `save_cache` (lines 37-42): write the in-memory mapping to the cache
file. -/
def save_cache (cache : Cache) (s : WhoisState) : WhoisState :=
  { s with disk := cache }

/-- The `try` block of `domain_age_days` (lines 75-95), with `raise`
embedded as `Except.error`: HTTP GET, JSON decode, extract
`WhoisRecord.createdDate`, reject a missing or empty value
(`if not created_str`), `strptime`, then
`age = (datetime.now(timezone.utc) - created_dt).days` — floored division
of the second difference by 86400. -/
def whoisTryBody (env : WhoisEnv) (domain : String) : Except String Int :=
  match env.net domain with
  | NetResult.httpError => Except.error "requests.get failed"
  | NetResult.jsonError => Except.error "resp.json failed"
  | NetResult.jsonOk createdDate =>
    match createdDate with
    | none => Except.error "No creation date returned"
    | some created_str =>
      if created_str = "" then Except.error "No creation date returned"
      else
        match env.parseDate created_str with
        | none => Except.error "strptime failed"
        | some created => Except.ok (Int.fdiv (env.now - created) 86400)

/-- Whether the embedded `try` body raised (used to state the error-handling
claims decidably). -/
def exceptFailed (e : Except String Int) : Bool :=
  match e with
  | Except.error _ => true
  | Except.ok _ => false

/-- Embeds `domain_age_days` (lines 60-101).  Step numbers match the source
comments: 1) cache hit returns immediately with no save and no request;
2) the empty domain stores and returns the sentinel without a request;
otherwise one HTTP request is issued (counted whether or not it raises), the
`except` clause turns any raise from the `try` body into the sentinel, the
cache is saved to disk, and `whois_cache[domain]` is returned (the `getD`
default is unreachable: the key was just inserted). -/
def domain_age_days (env : WhoisEnv) (domain : String) (s : WhoisState) :
    Int × WhoisState :=
  match dlookup s.mem domain with
  | some v => (v, s)
  | none =>
    if domain = "" then
      let mem := dinsert s.mem domain (-1)
      (-1, save_cache mem { s with mem := mem })
    else
      let age :=
        match whoisTryBody env domain with
        | Except.ok a => a
        | Except.error _ => -1
      let mem := dinsert s.mem domain age
      ((dlookup mem domain).getD (-1),
        save_cache mem { s with mem := mem, netCalls := s.netCalls + 1 })

/-! ## TLS certificate inspection

The `try` body of `tls_cert_days_valid` has a fatal slip: line 123 reads
`cert.not_valid_after`, which the `cryptography` library returns as an
offset-naive datetime (the source comment "timezone-aware UTC" is wrong —
the timezone-aware accessor is `not_valid_after_utc`), while line 125's
`now_utc = datetime.now(timezone.utc)` is offset-aware.  Python raises
`TypeError` when subtracting an offset-aware datetime from an offset-naive
one, so line 126 raises on every certificate that is obtained, line 127's
`return float(delta.days)` is unreachable, and the `except` clause returns
the sentinel on every input. -/

/-- Outcome of the connection/handshake/`getpeercert`/DER-parse pipeline of
`tls_cert_days_valid` (lines 112-123): any exception anywhere in it, or a
parsed certificate whose (offset-naive) `not_valid_after` field denotes the
given UTC timestamp in seconds. -/
inductive TlsOutcome
  | err
  | cert (notAfter : Int)

/-- Embeds the `try` body of `tls_cert_days_valid` (lines 112-127) with
`raise` as `Except.error`: the connection/handshake/parse pipeline can
raise; when it instead yields a certificate, line 126's
`not_after - now_utc` subtracts an offset-aware datetime from the
offset-naive `not_valid_after` and always raises `TypeError`, so the body
never reaches line 127's `return float(delta.days)`. -/
def tlsTryBody (o : String → TlsOutcome) (domain : String) :
    Except String Int :=
  match o domain with
  | TlsOutcome.err => Except.error "connection, handshake or parse failed"
  | TlsOutcome.cert _notAfter =>
    Except.error
      "TypeError: subtraction of offset-naive and offset-aware datetimes"

/-- Embeds `tls_cert_days_valid` (lines 106-130): the `except` clause turns
any raise from the `try` body — including the `TypeError` that line 126
raises on every obtained certificate — into the sentinel `-1.0`.  (`now`,
the clock read by line 125, is kept in the signature; the always-raising
subtraction never consumes it.) -/
def tls_cert_days_valid (o : String → TlsOutcome) (_now : Int)
    (domain : String) : Int :=
  match tlsTryBody o domain with
  | Except.ok dys => dys
  | Except.error _ => -1

/-- Embeds `has_valid_cert` (lines 135-140): `1 if days > 0 else 0`, where `days`
comes from a fresh call to `tls_cert_days_valid`. -/
def has_valid_cert (o : String → TlsOutcome) (now : Int)
    (domain : String) : Int :=
  if tls_cert_days_valid o now domain > 0 then 1 else 0

/-! ## The enrichment orchestrator `main`

A dataframe row is its `url` cell plus the remaining cells (`label` and any
upstream feature columns), which `main` never touches.  `main` (lines
145-166) works column-wise, exactly as the pandas code does: first
`df["domain"]` via `get_domain` (an exception from `urlparse` propagates out
of `Series.apply` and aborts `main`), then `df["domain_age_days"]` by
applying `domain_age_days` row by row in row order (threading the cache
state), then the two TLS columns, each a fresh inspection per row. -/

/-- One row of the input table: the `url` cell and all other cells. -/
structure Row where
  url : String
  others : List (String × String)
  deriving DecidableEq

/-- One row of the output table: the unchanged input row plus the four
appended cells. -/
structure EnrichedRow where
  base : Row
  domain : String
  domain_age_days : Int
  tls_days_valid : Int
  tls_valid_flag : Int
  deriving DecidableEq

/-- Embeds `df["domain_age_days"] = df["domain"].apply(domain_age_days)`: map
`domain_age_days` over the domain column in row order, threading the cache
state. -/
def mapAges (env : WhoisEnv) : List String → WhoisState → List Int × WhoisState
  | [], s => ([], s)
  | d :: ds, s =>
    let r := domain_age_days env d s
    let rest := mapAges env ds r.2
    (r.1 :: rest.1, rest.2)

/-- Embeds `df["domain"] = df["url"].apply(get_domain)`: map `get_domain` over the
url column in row order; the first `urlparse` exception propagates out of
`Series.apply`. -/
def mapGetDomain : List Row → Except String (List String)
  | [] => Except.ok []
  | r :: rs =>
    match get_domain r.url with
    | Except.error e => Except.error e
    | Except.ok d =>
      match mapGetDomain rs with
      | Except.error e => Except.error e
      | Except.ok ds => Except.ok (d :: ds)

/-- Assemble output rows from the input rows and the four computed columns
(all five lists have equal length when called from `main`). -/
def buildRows : List Row → List String → List Int → List Int → List Int →
    List EnrichedRow
  | r :: rs, d :: ds, a :: as', t :: ts, f :: fs =>
    ⟨r, d, a, t, f⟩ :: buildRows rs ds as' ts fs
  | _, _, _, _, _ => []

/-- Embeds `main` (lines 145-166): compute the `domain` column (propagating any
`urlparse` exception), then the `domain_age_days` column threading the WHOIS
cache state, then `tls_days_valid` and `tls_valid_flag` (each row a fresh
TLS inspection), and append all four columns to the input table.  `tnow` is
the clock seen by the TLS calls. -/
def main (env : WhoisEnv) (o : String → TlsOutcome) (tnow : Int)
    (rows : List Row) (s : WhoisState) :
    Except String (List EnrichedRow × WhoisState) :=
  match mapGetDomain rows with
  | Except.error e => Except.error e
  | Except.ok doms =>
    let ages := mapAges env doms s
    let tdays := doms.map (tls_cert_days_valid o tnow)
    let tflags := doms.map (has_valid_cert o tnow)
    Except.ok (buildRows rows doms ages.1 tdays tflags, ages.2)

/-! ## Concrete fixtures used by witnesses and counterexamples -/

/-- The initial state of a fresh run: empty cache dict, empty cache file, no
requests issued yet. -/
def st0 : WhoisState := ⟨[], [], 0⟩

/-- A state whose cache already holds `a.com` at 400 days (file in sync). -/
def stCached : WhoisState := ⟨[("a.com", 400)], [("a.com", 400)], 0⟩

/-- A world where every WHOIS request raises a network error. -/
def envFail : WhoisEnv := ⟨fun _ => NetResult.httpError, fun _ => none, 0⟩

/-- A world where WHOIS reports a creation date one hour in the future
(clock skew): `strptime` yields 3600 while `now` is 0. -/
def envFuture : WhoisEnv :=
  ⟨fun _ => NetResult.jsonOk (some "1970-01-01T01:00:00Z"), fun _ => some 3600, 0⟩

/-- A world where WHOIS reports a creation date 100 days in the past. -/
def envPast : WhoisEnv :=
  ⟨fun _ => NetResult.jsonOk (some "1970-01-01T00:00:00Z"),
   fun _ => some 0, 86400 * 100⟩

/-- A TLS world where every connection fails. -/
def tlsNone : String → TlsOutcome := fun _ => TlsOutcome.err

/-- A TLS world where every handshake succeeds with a certificate that
expires in 30 whole days. -/
def tlsMonth : String → TlsOutcome := fun _ => TlsOutcome.cert (86400 * 30)

/-- A one-row input table with an uppercase host. -/
def rowA : Row := ⟨"http://A.com/x", [("label", "legit")]⟩

/-- A one-row input table whose url makes `urlparse` raise. -/
def rowBad : Row := ⟨"http://[", [("label", "phish")]⟩

/-- The output row `main` produces for `rowA` in the worlds `envFail`,
`tlsNone`. -/
def outA : List EnrichedRow := [⟨rowA, "a.com", -1, -1, 0⟩]

/-- The cache state after `main` on `[rowA]` from `st0` in `envFail`. -/
def stA : WhoisState := ⟨[("a.com", -1)], [("a.com", -1)], 1⟩

/-- Decidable form of the amended lowercasing property: no character of the
hostname before the first `%` (the IPv6 zone separator) is an ASCII
uppercase letter. -/
def noUpperBeforeZone (h : String) : Bool :=
  (h.toList.takeWhile (fun c => c ≠ '%')).all (fun c => !c.isUpper)

/-! ## Helper lemmas -/

theorem uint32_le_iff_toNat_le (a b : UInt32) : a ≤ b ↔ a.toNat ≤ b.toNat := by
  rw [UInt32.le_def, BitVec.le_def]
  exact Iff.rfl

theorem char_ofNat_toNat {m : Nat} (h : m.isValidChar) :
    (Char.ofNat m).toNat = m := by
  rw [Char.ofNat, dif_pos h]
  rfl

theorem char_ne_of_toNat_ne {a b : Char} (h : a.toNat ≠ b.toNat) : a ≠ b :=
  fun he => h (he ▸ rfl)

theorem isUpper_iff_toNat (c : Char) :
    c.isUpper = true ↔ 65 ≤ c.toNat ∧ c.toNat ≤ 90 := by
  simp only [Char.isUpper, Bool.and_eq_true, decide_eq_true_iff, ge_iff_le]
  rw [uint32_le_iff_toNat_le, uint32_le_iff_toNat_le]
  have h65 : (65 : UInt32).toNat = 65 := by decide
  have h90 : (90 : UInt32).toNat = 90 := by decide
  rw [h65, h90]
  exact Iff.rfl

theorem toLower_not_upper (c : Char) : (Char.toLower c).isUpper = false := by
  unfold Char.toLower
  dsimp only
  by_cases hr : c.toNat ≥ 65 ∧ c.toNat ≤ 90
  · rw [if_pos hr]
    have hv : (c.toNat + 32).isValidChar := Or.inl (by omega)
    have ht : (Char.ofNat (c.toNat + 32)).toNat = c.toNat + 32 := char_ofNat_toNat hv
    rw [Bool.eq_false_iff]
    intro hu
    have := (isUpper_iff_toNat _).1 hu
    omega
  · rw [if_neg hr]
    rw [Bool.eq_false_iff]
    intro hu
    have := (isUpper_iff_toNat _).1 hu
    exact hr ⟨this.1, this.2⟩

theorem toLower_ne_pct (c : Char) (h : c ≠ '%') : Char.toLower c ≠ '%' := by
  unfold Char.toLower
  dsimp only
  by_cases hr : c.toNat ≥ 65 ∧ c.toNat ≤ 90
  · rw [if_pos hr]
    have hv : (c.toNat + 32).isValidChar := Or.inl (by omega)
    apply char_ne_of_toNat_ne
    rw [char_ofNat_toNat hv]
    have : ('%').toNat = 37 := by decide
    omega
  · rw [if_neg hr]
    exact h

theorem partChar_before_not_mem :
    ∀ (l : List Char) (d : Char), d ∉ (partChar l d).1 := by
  intro l d
  induction l with
  | nil => simp [partChar]
  | cons c cs ih =>
    by_cases h : c = d
    · simp [partChar, h]
    · simp [partChar, h, List.mem_cons]
      exact ⟨fun he => h he.symm, ih⟩

theorem takeWhile_append_all {p : Char → Bool} :
    ∀ (xs ys : List Char), (∀ c ∈ xs, p c = true) →
      List.takeWhile p (xs ++ ys) = xs ++ List.takeWhile p ys := by
  intro xs ys
  induction xs with
  | nil => intro _; rfl
  | cons c cs ih =>
    intro h
    have hc : p c = true := h c (List.mem_cons_self c cs)
    simp [List.takeWhile, hc]
    exact ih (fun x hx => h x (List.mem_cons_of_mem c hx))

theorem pyHostname_no_upper (netloc hl : List Char)
    (h : pyHostname netloc = some hl) :
    (hl.takeWhile (fun c => c ≠ '%')).all (fun c => !c.isUpper) = true := by
  unfold pyHostname at h
  dsimp only at h
  by_cases he : (hostinfoHost netloc).isEmpty
  · rw [if_pos he] at h
    cases h
  · rw [if_neg he] at h
    injection h with h
    subst h
    have hlow : ∀ c ∈ lowerAscii (partChar (hostinfoHost netloc) '%').1,
        (fun c => decide ¬(c = '%')) c = true := by
      intro c hc
      rcases List.mem_map.1 hc with ⟨c0, hc0, hce⟩
      have hne : c0 ≠ '%' := by
        intro hcc
        exact partChar_before_not_mem (hostinfoHost netloc) '%' (hcc ▸ hc0)
      subst hce
      exact decide_eq_true (toLower_ne_pct c0 hne)
    rw [takeWhile_append_all _ _ hlow, List.all_append, Bool.and_eq_true]
    constructor
    · rw [List.all_eq_true]
      intro c hc
      rcases List.mem_map.1 hc with ⟨c0, _, hce⟩
      subst hce
      simp [toLower_not_upper c0]
    · by_cases hbr : (partChar (hostinfoHost netloc) '%').2.1
      · rw [if_pos hbr]
        rfl
      · rw [if_neg hbr]
        rfl

/-- C8: `get_domain` is claimed to absorb every parse failure into the
empty-string result, with no exception escaping on any input; but `urlparse`
raises `ValueError("Invalid IPv6 URL")` on a netloc with an unbalanced
square bracket, and `get_domain` has no handler, so the exception escapes —
contradicting the function's own docstring ("If URL is malformed, returns
empty string").  This theorem evaluates the code at the failing input. -/
theorem get_domain_raises_value_error :
    get_domain "http://[" = Except.error "Invalid IPv6 URL" := by decide

/-- C10 counterexample: `urlparse(...).hostname` lowercases only the part
of the host before the `%` of an IPv6 zone identifier; the zone keeps its
case, so `get_domain` can return a hostname containing uppercase letters. -/
theorem get_domain_zone_keeps_uppercase :
    get_domain "http://[fe80::1%TEST]/k" = Except.ok "fe80::1%TEST" ∧
    "fe80::1%TEST".toList.any Char.isUpper = true := by decide

/-- C10 (amended): whenever `get_domain` returns a hostname, every character
of it before the first `%` (the IPv6 zone separator) is lowercased — the
returned hostname contains no ASCII uppercase letter except inside a zone
identifier.  In particular, for zone-free hosts two URLs whose hosts differ
only in ASCII letter case yield the same hostname, hence the same WHOIS
cache key and TLS target. -/
theorem get_domain_lowercases_host (url h : String)
    (hok : get_domain url = Except.ok h) :
    noUpperBeforeZone h = true := by
  unfold get_domain at hok
  cases hnet : urlsplitNetloc url with
  | error e =>
    rw [hnet] at hok
    cases hok
  | ok netloc =>
    rw [hnet] at hok
    injection hok with hok
    cases hpy : pyHostname netloc with
    | none =>
      rw [hpy] at hok
      subst hok
      rfl
    | some hl =>
      rw [hpy] at hok
      subst hok
      unfold noUpperBeforeZone
      exact pyHostname_no_upper netloc hl hpy

/-- C10 witness: a concrete uppercase-host URL, run through the theorem. -/
theorem get_domain_lowercases_host_wit :
    noUpperBeforeZone "www.example.com" = true :=
  get_domain_lowercases_host "https://WWW.Example.COM/Path" "www.example.com"
    (by decide)

theorem dlookup_dinsert_self (m : Cache) (d : String) (v : Int) :
    dlookup (dinsert m d v) d = some v := by
  simp [dinsert, dlookup]

theorem filter_eq_of_filter_ne (m : Cache) (d : String) :
    List.filter (fun p => p.1 = d) (List.filter (fun p => p.1 ≠ d) m) = [] := by
  induction m with
  | nil => rfl
  | cons p m ih =>
    by_cases h : p.1 = d
    · simp [List.filter_cons, h, ih]
    · simp [List.filter_cons, h, ih]

theorem countKey_dinsert_self (m : Cache) (d : String) (v : Int) :
    countKey (dinsert m d v) d = 1 := by
  unfold countKey dinsert
  rw [List.filter_cons]
  simp [filter_eq_of_filter_ne]

theorem countKey_eq_zero_of_not_mem (m : Cache) (d : String)
    (h : d ∉ List.map Prod.fst m) : countKey m d = 0 := by
  induction m with
  | nil => rfl
  | cons p m ih =>
    simp only [List.map_cons, List.mem_cons] at h
    push_neg at h
    have hp : ¬ (p.1 = d) := fun he => h.1 (he ▸ rfl)
    unfold countKey
    rw [List.filter_cons, if_neg (by simp [hp])]
    exact ih h.2

theorem countKey_le_one_of_nodup (m : Cache)
    (h : (List.map Prod.fst m).Nodup) (d : String) : countKey m d ≤ 1 := by
  induction m with
  | nil => exact Nat.zero_le 1
  | cons p m ih =>
    rw [List.map_cons, List.nodup_cons] at h
    unfold countKey
    rw [List.filter_cons]
    by_cases hp : p.1 = d
    · rw [if_pos (by simp [hp])]
      have h0 : countKey m d = 0 :=
        countKey_eq_zero_of_not_mem m d (hp ▸ h.1)
      unfold countKey at h0
      rw [List.length_cons, h0]
    · rw [if_neg (by simp [hp])]
      exact ih h.2

theorem countKey_pos_of_dlookup (m : Cache) (d : String) (v : Int)
    (h : dlookup m d = some v) : 1 ≤ countKey m d := by
  induction m with
  | nil => cases h
  | cons p m ih =>
    unfold countKey
    rw [List.filter_cons]
    match p, h with
    | (k, w), h =>
      by_cases hk : k = d
      · rw [if_pos (by simp [hk])]
        rw [List.length_cons]
        omega
      · unfold dlookup at h
        rw [if_neg hk] at h
        rw [if_neg (by simp [hk])]
        exact ih h

/-- Shared helper: after any call of `domain_age_days`, the in-memory cache
binds the queried domain to exactly the value the call returned. -/
theorem dlookup_age_days (env : WhoisEnv) (d : String) (s : WhoisState) :
    dlookup (domain_age_days env d s).2.mem d =
      some ((domain_age_days env d s).1) := by
  unfold domain_age_days
  cases hm : dlookup s.mem d with
  | some v => exact hm
  | none =>
    dsimp only
    by_cases hd : d = ""
    · rw [if_pos hd]
      simp [save_cache, dlookup_dinsert_self]
    · rw [if_neg hd]
      cases htry : whoisTryBody env d <;>
        simp [save_cache, dlookup_dinsert_self]

/-- C2: on any WHOIS lookup failure (network error, non-JSON response, or a
response whose creation-date field is missing, empty, or unparseable) for a
domain not yet cached, `domain_age_days` returns exactly `-1.0`, stores
`-1.0` in the cache for that domain, and the `except` clause absorbs the
exception, so none propagates: the call returns normally with the cache
file holding the updated mapping. -/
theorem whois_failure_sentinel (env : WhoisEnv) (d : String) (s : WhoisState)
    (hmiss : dlookup s.mem d = none)
    (hfail : exceptFailed (whoisTryBody env d) = true) :
    (domain_age_days env d s).1 = -1 ∧
    dlookup (domain_age_days env d s).2.mem d = some (-1) ∧
    (domain_age_days env d s).2.disk = (domain_age_days env d s).2.mem := by
  unfold domain_age_days
  rw [hmiss]
  dsimp only
  by_cases hd : d = ""
  · rw [if_pos hd]
    simp [save_cache, dlookup_dinsert_self]
  · rw [if_neg hd]
    cases htry : whoisTryBody env d with
    | ok a =>
      rw [htry] at hfail
      cases hfail
    | error e =>
      simp [save_cache, dlookup_dinsert_self]

/-- C2 witness: a fresh domain in a world where the HTTP request raises. -/
theorem whois_failure_sentinel_wit :
    (domain_age_days envFail "x.com" st0).1 = -1 ∧
    dlookup (domain_age_days envFail "x.com" st0).2.mem "x.com" = some (-1) ∧
    (domain_age_days envFail "x.com" st0).2.disk =
      (domain_age_days envFail "x.com" st0).2.mem :=
  whois_failure_sentinel envFail "x.com" st0 (by decide) (by decide)

/-- C3: after any call of `domain_age_days` on any domain, starting from a
state whose cache dict has unique keys (a Python dict invariant) and whose
cache file is in sync with the dict (established at load and maintained by
every write), the cache holds exactly one entry for that domain — the value
just returned — and the full mapping is on disk when the call returns. -/
theorem whois_cache_invariant (env : WhoisEnv) (d : String) (s : WhoisState)
    (hnd : (List.map Prod.fst s.mem).Nodup) (hdisk : s.disk = s.mem) :
    dlookup (domain_age_days env d s).2.mem d =
      some ((domain_age_days env d s).1) ∧
    countKey (domain_age_days env d s).2.mem d = 1 ∧
    (domain_age_days env d s).2.disk = (domain_age_days env d s).2.mem := by
  refine ⟨dlookup_age_days env d s, ?_, ?_⟩
  · unfold domain_age_days
    cases hm : dlookup s.mem d with
    | some v =>
      exact Nat.le_antisymm (countKey_le_one_of_nodup s.mem hnd d)
        (countKey_pos_of_dlookup s.mem d v hm)
    | none =>
      dsimp only
      by_cases hd : d = ""
      · rw [if_pos hd]
        simp [save_cache, countKey_dinsert_self]
      · rw [if_neg hd]
        cases htry : whoisTryBody env d <;>
          simp [save_cache, countKey_dinsert_self]
  · unfold domain_age_days
    cases hm : dlookup s.mem d with
    | some v => exact hdisk
    | none =>
      dsimp only
      by_cases hd : d = ""
      · rw [if_pos hd]
        simp [save_cache]
      · rw [if_neg hd]
        cases htry : whoisTryBody env d <;> simp [save_cache]

/-- C3 witness: a fresh domain queried from the initial state. -/
theorem whois_cache_invariant_wit :
    dlookup (domain_age_days envFail "x.com" st0).2.mem "x.com" =
      some ((domain_age_days envFail "x.com" st0).1) ∧
    countKey (domain_age_days envFail "x.com" st0).2.mem "x.com" = 1 ∧
    (domain_age_days envFail "x.com" st0).2.disk =
      (domain_age_days envFail "x.com" st0).2.mem :=
  whois_cache_invariant envFail "x.com" st0 (by decide) (by decide)

/-- C4: for a domain already in the cache dict, `domain_age_days` returns
the cached value and leaves the state untouched — no network request
(`netCalls` unchanged) and no cache write (`disk` unchanged). -/
theorem cached_domain_no_effect (env : WhoisEnv) (d : String) (s : WhoisState)
    (v : Int) (h : dlookup s.mem d = some v) :
    domain_age_days env d s = (v, s) := by
  unfold domain_age_days
  rw [h]

/-- C4 witness: `a.com` pre-cached at 400 days. -/
theorem cached_domain_no_effect_wit :
    domain_age_days envFail "a.com" stCached = (400, stCached) :=
  cached_domain_no_effect envFail "a.com" stCached 400 (by decide)

/-- C5 counterexample: for the empty domain, not previously cached, two
successive calls of `domain_age_days` perform zero network calls, not
exactly one — the empty domain is cached without any request. -/
theorem age_days_twice_zero_calls :
    dlookup st0.mem "" = none ∧
    (domain_age_days envFail ""
        (domain_age_days envFail "" st0).2).2.netCalls = 0 := by decide

/-- C5 (amended): calling `domain_age_days` twice in succession on a domain
not previously cached performs at most one network call — exactly one when
the domain is non-empty, zero for the empty domain — and the second call is
served from the cache: it performs no network call, changes nothing, and
returns the same value as the first. -/
theorem age_days_idempotent (env : WhoisEnv) (d : String) (s : WhoisState)
    (hmiss : dlookup s.mem d = none) :
    (d ≠ "" → (domain_age_days env d s).2.netCalls = s.netCalls + 1) ∧
    (d = "" → (domain_age_days env d s).2.netCalls = s.netCalls) ∧
    domain_age_days env d (domain_age_days env d s).2 =
      ((domain_age_days env d s).1, (domain_age_days env d s).2) := by
  refine ⟨?_, ?_, ?_⟩
  · intro hd
    unfold domain_age_days
    rw [hmiss]
    dsimp only
    rw [if_neg hd]
    cases htry : whoisTryBody env d <;> simp [save_cache]
  · intro hd
    unfold domain_age_days
    rw [hmiss]
    dsimp only
    rw [if_pos hd]
    simp [save_cache]
  · have hc := dlookup_age_days env d s
    generalize hres : domain_age_days env d s = r at hc ⊢
    unfold domain_age_days
    rw [hc]

/-- C5 witness: a fresh non-empty domain: one request, then a pure hit. -/
theorem age_days_idempotent_wit :
    (domain_age_days envFail "x.com" st0).2.netCalls = 1 ∧
    domain_age_days envFail "x.com" (domain_age_days envFail "x.com" st0).2 =
      ((domain_age_days envFail "x.com" st0).1,
        (domain_age_days envFail "x.com" st0).2) := by
  have h := age_days_idempotent envFail "x.com" st0 (by decide)
  refine ⟨?_, h.2.2⟩
  rw [h.1 (by decide)]
  decide

/-- C6: for the empty domain string — never cached with a value other than
the sentinel, since only this program writes the cache — `domain_age_days`
returns `-1.0`, the cache afterwards holds an entry for the empty key, and
no network call is made. -/
theorem empty_domain_sentinel (env : WhoisEnv) (s : WhoisState)
    (h : dlookup s.mem "" = none ∨ dlookup s.mem "" = some (-1)) :
    (domain_age_days env "" s).1 = -1 ∧
    dlookup (domain_age_days env "" s).2.mem "" = some (-1) ∧
    (domain_age_days env "" s).2.netCalls = s.netCalls := by
  cases h with
  | inl h =>
    unfold domain_age_days
    rw [h]
    dsimp only
    rw [if_pos rfl]
    simp [save_cache, dlookup_dinsert_self]
  | inr h =>
    unfold domain_age_days
    rw [h]
    exact ⟨rfl, h, rfl⟩

/-- C6 witness: the empty domain from the initial state. -/
theorem empty_domain_sentinel_wit :
    (domain_age_days envFail "" st0).1 = -1 ∧
    dlookup (domain_age_days envFail "" st0).2.mem "" = some (-1) ∧
    (domain_age_days envFail "" st0).2.netCalls = st0.netCalls :=
  empty_domain_sentinel envFail st0 (Or.inl (by decide))

/-- C7 counterexample: a successful WHOIS lookup — creation date present and
parsed — whose creation date lies one hour in the future (clock skew) gives
`(now - created).days = -1`, so `domain_age_days` caches and returns exactly
the sentinel `-1.0` for a real measurement. -/
theorem sentinel_collision :
    whoisTryBody envFuture "x.com" = Except.ok (-1) ∧
    (domain_age_days envFuture "x.com" st0).1 = -1 ∧
    dlookup (domain_age_days envFuture "x.com" st0).2.mem "x.com" =
      some (-1) := by decide

/-- C7 (amended): the cached value of a successful lookup can equal the
sentinel `-1.0` only when the parsed creation date lies in the future;
whenever the creation date is not after `now`, the value cached and
returned is the nonnegative whole-day age, never `-1.0`. -/
theorem whois_success_age (env : WhoisEnv) (d cs : String) (created : Int)
    (s : WhoisState) (hmiss : dlookup s.mem d = none) (hd : d ≠ "")
    (hnet : env.net d = NetResult.jsonOk (some cs)) (hcs : cs ≠ "")
    (hp : env.parseDate cs = some created) (hle : created ≤ env.now) :
    0 ≤ (domain_age_days env d s).1 ∧
    (domain_age_days env d s).1 ≠ -1 ∧
    dlookup (domain_age_days env d s).2.mem d =
      some ((domain_age_days env d s).1) := by
  have htry : whoisTryBody env d =
      Except.ok (Int.fdiv (env.now - created) 86400) := by
    unfold whoisTryBody
    rw [hnet]
    dsimp only
    rw [if_neg hcs, hp]
  have hnn : 0 ≤ Int.fdiv (env.now - created) 86400 :=
    Int.fdiv_nonneg (by omega) (by norm_num)
  refine ⟨?_, ?_, dlookup_age_days env d s⟩
  · unfold domain_age_days
    rw [hmiss]
    dsimp only
    rw [if_neg hd, htry]
    simpa [save_cache, dlookup_dinsert_self] using hnn
  · unfold domain_age_days
    rw [hmiss]
    dsimp only
    rw [if_neg hd, htry]
    simp only [save_cache, dlookup_dinsert_self, Option.getD_some]
    intro hcon
    omega

/-- C7 witness: a creation date 100 days in the past yields age 100. -/
theorem whois_success_age_wit :
    0 ≤ (domain_age_days envPast "x.com" st0).1 ∧
    (domain_age_days envPast "x.com" st0).1 ≠ -1 ∧
    dlookup (domain_age_days envPast "x.com" st0).2.mem "x.com" =
      some ((domain_age_days envPast "x.com" st0).1) :=
  whois_success_age envPast "x.com" "1970-01-01T00:00:00Z" 0 st0
    (by decide) (by decide) rfl (by decide) rfl (by decide)

/-- C1: the claim states the intended behavior (the docstrings promise the
remaining days and a validity flag), but the code cannot produce it:
`cert.not_valid_after` is offset-naive while `now_utc` is offset-aware, so
line 126 raises `TypeError` on every obtained certificate, the `except`
clause swallows it, and for every world, clock and domain — evaluated here
also at the concrete failing input of a certificate with 30 whole days
remaining — `tls_cert_days_valid` returns `-1.0` and `has_valid_cert`
returns `0`: the `D > 0` success behavior is unimplemented. -/
theorem tls_always_sentinel :
    (∀ (o : String → TlsOutcome) (now : Int) (d : String),
      tls_cert_days_valid o now d = -1 ∧ has_valid_cert o now d = 0) ∧
    tls_cert_days_valid tlsMonth 0 "a.com" = -1 ∧
    has_valid_cert tlsMonth 0 "a.com" = 0 := by
  have hall : ∀ (o : String → TlsOutcome) (now : Int) (d : String),
      tls_cert_days_valid o now d = -1 ∧ has_valid_cert o now d = 0 := by
    intro o now d
    unfold has_valid_cert tls_cert_days_valid tlsTryBody
    cases o d <;> exact ⟨rfl, rfl⟩
  exact ⟨hall, hall tlsMonth 0 "a.com"⟩

theorem mapGetDomain_length :
    ∀ (rows : List Row) (doms : List String),
      mapGetDomain rows = Except.ok doms → doms.length = rows.length := by
  intro rows
  induction rows with
  | nil =>
    intro doms h
    unfold mapGetDomain at h
    injection h with h
    rw [← h]
    rfl
  | cons r rs ih =>
    intro doms h
    unfold mapGetDomain at h
    cases hg : get_domain r.url with
    | error e =>
      rw [hg] at h
      cases h
    | ok d =>
      rw [hg] at h
      dsimp only at h
      cases hm : mapGetDomain rs with
      | error e =>
        rw [hm] at h
        cases h
      | ok ds =>
        rw [hm] at h
        dsimp only at h
        injection h with h
        rw [← h, List.length_cons, List.length_cons, ih ds hm]

theorem mapAges_length (env : WhoisEnv) :
    ∀ (ds : List String) (s : WhoisState),
      (mapAges env ds s).1.length = ds.length := by
  intro ds
  induction ds with
  | nil => intro s; rfl
  | cons d ds ih =>
    intro s
    unfold mapAges
    dsimp only
    rw [List.length_cons, List.length_cons, ih]

theorem buildRows_proj :
    ∀ (rs : List Row) (ds : List String) (as' ts fs : List Int),
      ds.length = rs.length → as'.length = rs.length →
      ts.length = rs.length → fs.length = rs.length →
      List.map EnrichedRow.base (buildRows rs ds as' ts fs) = rs ∧
      List.map EnrichedRow.domain (buildRows rs ds as' ts fs) = ds ∧
      List.map EnrichedRow.domain_age_days (buildRows rs ds as' ts fs) = as' ∧
      List.map EnrichedRow.tls_days_valid (buildRows rs ds as' ts fs) = ts ∧
      List.map EnrichedRow.tls_valid_flag (buildRows rs ds as' ts fs) = fs := by
  intro rs
  induction rs with
  | nil =>
    intro ds as' ts fs h1 h2 h3 h4
    rw [List.length_nil] at h1 h2 h3 h4
    rw [List.length_eq_zero] at h1 h2 h3 h4
    subst h1; subst h2; subst h3; subst h4
    exact ⟨rfl, rfl, rfl, rfl, rfl⟩
  | cons r rs ih =>
    intro ds as' ts fs h1 h2 h3 h4
    cases ds with
    | nil => simp at h1
    | cons d ds =>
      cases as' with
      | nil => simp at h2
      | cons a as' =>
        cases ts with
        | nil => simp at h3
        | cons t ts =>
          cases fs with
          | nil => simp at h4
          | cons f fs =>
            simp only [List.length_cons, Nat.add_right_cancel_iff]
              at h1 h2 h3 h4
            have hrec := ih ds as' ts fs h1 h2 h3 h4
            unfold buildRows
            simp only [List.map_cons]
            exact ⟨by rw [hrec.1], by rw [hrec.2.1], by rw [hrec.2.2.1],
              by rw [hrec.2.2.2.1], by rw [hrec.2.2.2.2]⟩

/-- C9 counterexample: an input table containing the url `http://[` makes
`urlparse` raise inside `df["url"].apply(get_domain)`, so `main` aborts
with the exception and produces no output table at all. -/
theorem main_aborts_on_bad_url :
    main envFail tlsNone 0 [rowBad] st0 =
      Except.error "Invalid IPv6 URL" := by decide

/-- C9 (amended): whenever `main` produces an output table (that is, no url
makes `urlparse` raise), its rows are in exactly the input row order with
each input row carried unchanged (`base`), and exactly the four columns
`domain`, `domain_age_days`, `tls_days_valid`, `tls_valid_flag` are
appended, holding the values of the corresponding column computations. -/
theorem main_frame_and_order (env : WhoisEnv) (o : String → TlsOutcome)
    (tnow : Int) (rows : List Row) (s : WhoisState) (doms : List String)
    (out : List EnrichedRow) (s2 : WhoisState)
    (hd : mapGetDomain rows = Except.ok doms)
    (hm : main env o tnow rows s = Except.ok (out, s2)) :
    List.map EnrichedRow.base out = rows ∧
    List.map EnrichedRow.domain out = doms ∧
    List.map EnrichedRow.domain_age_days out = (mapAges env doms s).1 ∧
    List.map EnrichedRow.tls_days_valid out =
      List.map (tls_cert_days_valid o tnow) doms ∧
    List.map EnrichedRow.tls_valid_flag out =
      List.map (has_valid_cert o tnow) doms ∧
    s2 = (mapAges env doms s).2 := by
  unfold main at hm
  rw [hd] at hm
  dsimp only at hm
  injection hm with hm
  rw [Prod.mk.injEq] at hm
  obtain ⟨hout, hs⟩ := hm
  have hlen : doms.length = rows.length := mapGetDomain_length rows doms hd
  have hp := buildRows_proj rows doms (mapAges env doms s).1
    (List.map (tls_cert_days_valid o tnow) doms)
    (List.map (has_valid_cert o tnow) doms)
    hlen (by rw [mapAges_length env doms s, hlen])
    (by rw [List.length_map, hlen]) (by rw [List.length_map, hlen])
  rw [hout] at hp
  exact ⟨hp.1, hp.2.1, hp.2.2.1, hp.2.2.2.1, hp.2.2.2.2, hs.symm⟩

/-- C9 witness: a one-row table with an uppercase host in a world where all
lookups fail. -/
theorem main_frame_and_order_wit :
    List.map EnrichedRow.base outA = [rowA] ∧
    List.map EnrichedRow.domain outA = ["a.com"] ∧
    List.map EnrichedRow.domain_age_days outA =
      (mapAges envFail ["a.com"] st0).1 ∧
    List.map EnrichedRow.tls_days_valid outA =
      List.map (tls_cert_days_valid tlsNone 0) ["a.com"] ∧
    List.map EnrichedRow.tls_valid_flag outA =
      List.map (has_valid_cert tlsNone 0) ["a.com"] ∧
    stA = (mapAges envFail ["a.com"] st0).2 :=
  main_frame_and_order envFail tlsNone 0 [rowA] st0 ["a.com"] outA stA
    (by decide) (by decide)

end PhishFeat
